import Mathlib

/-!
Verification development for the wormhole core dispatch engine
(`src/core.rs` of the repository).

The file shallowly embeds the code of `core.rs`:

* the closed event algebra `Event` (one variant per sub-machine plus the
  `API`, `IO` and `Timing` variants; the variant list is read off the
  `match` in `WormholeCore::_execute`),
* the machine slots of the `WormholeCore` struct, each an opaque state
  plus a `process` function (the sub-machines themselves live in modules
  that are external collaborators; the core only routes events to them),
* the constructor `WormholeCore::new`, recording which construction
  arguments are passed to which machine constructor,
* the drain loop `WormholeCore::_execute` (fuel-indexed, since the Rust
  `while` loop has no termination guarantee of its own), and the entry
  points `do_api` / `do_io`,
* the boundary bridge of `run`: the per-batch forwarding loop over the
  outbound sink, and the select arm that substitutes a synthetic `Close`
  when the application source is exhausted.

Machine payload types, machine state types and machine behaviours are
parameters throughout: the core treats them opaquely, and so do we.
-/

set_option maxHeartbeats 1000000

namespace Wormhole

/-- The payload and parameter types of the event algebra. Every one of
them is opaque to the core (`core.rs` never inspects a payload), so the
development is parametric in all of them. -/
structure Types : Type 1 where
  apiEvent : Type
  apiAction : Type
  ioEvent : Type
  ioAction : Type
  timingEv : Type
  allocatorEv : Type
  bossEv : Type
  codeEv : Type
  inputEv : Type
  keyEv : Type
  listerEv : Type
  mailboxEv : Type
  nameplateEv : Type
  orderEv : Type
  receiveEv : Type
  rendezvousEv : Type
  sendEv : Type
  terminatorEv : Type
  appID : Type
  side : Type

/-- The closed event enumeration `events::Event`, with the variants that
the exhaustive `match` in `WormholeCore::_execute` dispatches on: the two
boundary variants (`API` carrying an `APIAction`, `IO` carrying an
`IOAction`, written `Io` here), one variant per sub-machine, and `Timing`.
-/
inductive Event (τ : Types) : Type where
  | API : τ.apiAction → Event τ
  | Io : τ.ioAction → Event τ
  | Allocator : τ.allocatorEv → Event τ
  | Boss : τ.bossEv → Event τ
  | Code : τ.codeEv → Event τ
  | Input : τ.inputEv → Event τ
  | Key : τ.keyEv → Event τ
  | Lister : τ.listerEv → Event τ
  | Mailbox : τ.mailboxEv → Event τ
  | Nameplate : τ.nameplateEv → Event τ
  | Order : τ.orderEv → Event τ
  | Receive : τ.receiveEv → Event τ
  | Rendezvous : τ.rendezvousEv → Event τ
  | Send : τ.sendEv → Event τ
  | Terminator : τ.terminatorEv → Event τ
  | Timing : τ.timingEv → Event τ

/-- The construction arguments a machine constructor received in
`WormholeCore::new` (lines 117-138 of `core.rs`): the application id, the
relay url, the freshly generated side identity and the rendezvous retry
timer. `none` records that the constructor was not passed that argument. -/
structure CtorArgs (τ : Types) where
  appid : Option τ.appID := none
  relayUrl : Option String := none
  sideArg : Option τ.side := none
  retryTimer : Option ℚ := none

/-- A sub-machine slot of the `WormholeCore` struct: its recorded
construction arguments, an opaque internal state, and the
`process(event) -> Events` capability. The payload type `P` is the one
tagged to this machine variant of `Event`. -/
structure Machine (τ : Types) (P : Type) : Type 1 where
  args : CtorArgs τ
  S : Type
  st : S
  process : S → P → S × List (Event τ)

/-- The boss machine slot: like `Machine` but additionally exposing
`process_api`, the entry point used by `WormholeCore::do_api`. -/
structure BossMachine (τ : Types) : Type 1 where
  args : CtorArgs τ
  S : Type
  st : S
  process : S → τ.bossEv → S × List (Event τ)
  processApi : S → τ.apiEvent → S × List (Event τ)

/-- The rendezvous machine slot: like `Machine` but additionally exposing
`process_io`, the entry point used by `WormholeCore::do_io`. -/
structure RendezvousMachine (τ : Types) : Type 1 where
  args : CtorArgs τ
  S : Type
  st : S
  process : S → τ.rendezvousEv → S × List (Event τ)
  processIo : S → τ.ioEvent → S × List (Event τ)

/-- The `WormholeCore` struct: one long-lived slot per sub-machine, plus
the timing collector and the io bridge.

The `timing` field models `timing::Timing` and the `io` field models
`io::WormholeIO`; both modules are external to the provided core source.
Modelled from the spec: the timing collector is a passive side-channel
collector of the samples diverted to it by `self.timing.add(e)` (line 191
of `core.rs`), so it is the list of samples added, in order; the io bridge
synchronously consumes the `IOAction`s handed to it by
`self.io.process(a)` (line 169), so it is the list of actions handed over,
in order. -/
structure WormholeCore (τ : Types) : Type 1 where
  allocator : Machine τ τ.allocatorEv
  boss : BossMachine τ
  code : Machine τ τ.codeEv
  input : Machine τ τ.inputEv
  key : Machine τ τ.keyEv
  lister : Machine τ τ.listerEv
  mailbox : Machine τ τ.mailboxEv
  nameplate : Machine τ τ.nameplateEv
  order : Machine τ τ.orderEv
  receive : Machine τ τ.receiveEv
  rendezvous : RendezvousMachine τ
  send : Machine τ τ.sendEv
  terminator : Machine τ τ.terminatorEv
  timing : List τ.timingEv
  io : List τ.ioAction

/-- An opaque machine behaviour: state type, initial state, and process
function. The machine constructors called by `WormholeCore::new` live in
modules outside the core, so `new` is parametric in them; the behaviour is
what a constructor call returns, while `new` itself fixes which protocol
parameters each constructor receives. -/
structure Behavior (τ : Types) (P : Type) : Type 1 where
  S : Type
  init : S
  process : S → P → S × List (Event τ)

/-- Opaque behaviour of the boss machine, including its `process_api`
entry point. -/
structure BossBehavior (τ : Types) : Type 1 where
  S : Type
  init : S
  process : S → τ.bossEv → S × List (Event τ)
  processApi : S → τ.apiEvent → S × List (Event τ)

/-- Opaque behaviour of the rendezvous machine, including its
`process_io` entry point. -/
structure RendezvousBehavior (τ : Types) : Type 1 where
  S : Type
  init : S
  process : S → τ.rendezvousEv → S × List (Event τ)
  processIo : S → τ.ioEvent → S × List (Event τ)

/-- The rendezvous retry timer constant passed by `WormholeCore::new` to
`RendezvousMachine::new` at line 131 of `core.rs`: the source literal is
the `f64` value `5.0`, modelled here as the rational `5` (the core never
computes with it, it is only handed over). -/
def retryTimerSeconds : ℚ := 5

/-- The bundle of opaque machine behaviours `WormholeCore::new` wires
together (the constructors of the thirteen sub-machines, the timing
collector and the io bridge live outside `core.rs`). -/
structure Behaviors (τ : Types) : Type 1 where
  allocator : Behavior τ τ.allocatorEv
  boss : BossBehavior τ
  code : Behavior τ τ.codeEv
  input : Behavior τ τ.inputEv
  key : Behavior τ τ.keyEv
  lister : Behavior τ τ.listerEv
  mailbox : Behavior τ τ.mailboxEv
  nameplate : Behavior τ τ.nameplateEv
  order : Behavior τ τ.orderEv
  receive : Behavior τ τ.receiveEv
  rendezvous : RendezvousBehavior τ
  send : Behavior τ τ.sendEv
  terminator : Behavior τ τ.terminatorEv

/-- `WormholeCore::new` (lines 117-138 of `core.rs`). The freshly
generated side identity (`MySide::generate()` in the source; randomness is
modelled as the input `side`) is passed to the `key`, `mailbox`,
`rendezvous` and `send` constructors; the application id to `key` and
`rendezvous`; the relay url and the retry timer `5.0` to `rendezvous`
alone. All the other machine constructors receive no protocol parameter. -/
def WormholeCore.new (τ : Types) (b : Behaviors τ) (appid : τ.appID)
    (relayUrl : String) (side : τ.side) : WormholeCore τ where
  allocator := ⟨{}, b.allocator.S, b.allocator.init, b.allocator.process⟩
  boss := ⟨{}, b.boss.S, b.boss.init, b.boss.process, b.boss.processApi⟩
  code := ⟨{}, b.code.S, b.code.init, b.code.process⟩
  input := ⟨{}, b.input.S, b.input.init, b.input.process⟩
  key := ⟨{ appid := some appid, sideArg := some side }, b.key.S,
    b.key.init, b.key.process⟩
  lister := ⟨{}, b.lister.S, b.lister.init, b.lister.process⟩
  mailbox := ⟨{ sideArg := some side }, b.mailbox.S, b.mailbox.init,
    b.mailbox.process⟩
  nameplate := ⟨{}, b.nameplate.S, b.nameplate.init, b.nameplate.process⟩
  order := ⟨{}, b.order.S, b.order.init, b.order.process⟩
  receive := ⟨{}, b.receive.S, b.receive.init, b.receive.process⟩
  rendezvous :=
    ⟨{ appid := some appid
       relayUrl := some relayUrl
       sideArg := some side
       retryTimer := some retryTimerSeconds },
     b.rendezvous.S, b.rendezvous.init, b.rendezvous.process,
     b.rendezvous.processIo⟩
  send := ⟨{ sideArg := some side }, b.send.S, b.send.init, b.send.process⟩
  terminator := ⟨{}, b.terminator.S, b.terminator.init,
    b.terminator.process⟩
  timing := []
  io := []

variable {τ : Types}

/-- One arm of the exhaustive `match e` in `WormholeCore::_execute`
(lines 164-184 of `core.rs`). Returns the updated core, the actions pushed
onto `action_queue` by this arm (one for an `API` event, none otherwise),
and the `Events` batch the arm produced (empty for `API`, `IO` and
`Timing`; the routed machine output otherwise). -/
def handleEvent (c : WormholeCore τ) :
    Event τ → WormholeCore τ × List τ.apiAction × List (Event τ)
  | .API a => (c, [a], [])
  | .Io a => ({ c with io := c.io ++ [a] }, [], [])
  | .Allocator e =>
    let r := c.allocator.process c.allocator.st e
    ({ c with allocator := { c.allocator with st := r.1 } }, [], r.2)
  | .Boss e =>
    let r := c.boss.process c.boss.st e
    ({ c with boss := { c.boss with st := r.1 } }, [], r.2)
  | .Code e =>
    let r := c.code.process c.code.st e
    ({ c with code := { c.code with st := r.1 } }, [], r.2)
  | .Input e =>
    let r := c.input.process c.input.st e
    ({ c with input := { c.input with st := r.1 } }, [], r.2)
  | .Key e =>
    let r := c.key.process c.key.st e
    ({ c with key := { c.key with st := r.1 } }, [], r.2)
  | .Lister e =>
    let r := c.lister.process c.lister.st e
    ({ c with lister := { c.lister with st := r.1 } }, [], r.2)
  | .Mailbox e =>
    let r := c.mailbox.process c.mailbox.st e
    ({ c with mailbox := { c.mailbox with st := r.1 } }, [], r.2)
  | .Nameplate e =>
    let r := c.nameplate.process c.nameplate.st e
    ({ c with nameplate := { c.nameplate with st := r.1 } }, [], r.2)
  | .Order e =>
    let r := c.order.process c.order.st e
    ({ c with order := { c.order with st := r.1 } }, [], r.2)
  | .Receive e =>
    let r := c.receive.process c.receive.st e
    ({ c with receive := { c.receive with st := r.1 } }, [], r.2)
  | .Rendezvous e =>
    let r := c.rendezvous.process c.rendezvous.st e
    ({ c with rendezvous := { c.rendezvous with st := r.1 } }, [], r.2)
  | .Send e =>
    let r := c.send.process c.send.st e
    ({ c with send := { c.send with st := r.1 } }, [], r.2)
  | .Terminator e =>
    let r := c.terminator.process c.terminator.st e
    ({ c with terminator := { c.terminator with st := r.1 } }, [], r.2)
  | .Timing _ => (c, [], [])

/-- The `for a in actions.events` loop at lines 186-194 of `core.rs`:
each produced event is either a `Timing` event, diverted into the timing
collector via `self.timing.add`, or pushed onto the back of the event
queue. Returns the updated core and the updated queue. -/
def enqueueBatch (c : WormholeCore τ) (q : List (Event τ)) :
    List (Event τ) → WormholeCore τ × List (Event τ)
  | [] => (c, q)
  | .Timing t :: rest => enqueueBatch { c with timing := c.timing ++ [t] } q rest
  | a :: rest => enqueueBatch c (q ++ [a]) rest

/-- The `while let Some(e) = event_queue.pop_front()` drain loop of
`WormholeCore::_execute` (lines 161-195 of `core.rs`), indexed by fuel:
`none` means the loop failed to empty the queue within `fuel` iterations
(the Rust loop itself has no termination guarantee). `acc` is the
`action_queue` accumulator. -/
def execLoop : Nat → WormholeCore τ → List (Event τ) → List τ.apiAction →
    Option (WormholeCore τ × List τ.apiAction)
  | _, c, [], acc => some (c, acc)
  | 0, _, _ :: _, _ => none
  | n + 1, c, e :: q, acc =>
    let h := handleEvent c e
    let eb := enqueueBatch h.1 q h.2.2
    execLoop n eb.1 eb.2 (acc ++ h.2.1)

/-- `WormholeCore::_execute` (lines 155-197 of `core.rs`): seed the fresh
event queue with the stimulus batch, drain it, and return the accumulated
`APIAction`s. -/
def WormholeCore.execute (fuel : Nat) (c : WormholeCore τ)
    (events : List (Event τ)) : Option (WormholeCore τ × List τ.apiAction) :=
  execLoop fuel c events []

/-- `WormholeCore::do_api` (lines 141-146 of `core.rs`): feed the
application stimulus to `boss.process_api` and execute the resulting
batch. -/
def WormholeCore.do_api (fuel : Nat) (c : WormholeCore τ) (event : τ.apiEvent) :
    Option (WormholeCore τ × List τ.apiAction) :=
  let r := c.boss.processApi c.boss.st event
  WormholeCore.execute fuel { c with boss := { c.boss with st := r.1 } } r.2

/-- `WormholeCore::do_io` (lines 149-153 of `core.rs`): feed the io
stimulus to `rendezvous.process_io` and execute the resulting batch. -/
def WormholeCore.do_io (fuel : Nat) (c : WormholeCore τ) (event : τ.ioEvent) :
    Option (WormholeCore τ × List τ.apiAction) :=
  let r := c.rendezvous.processIo c.rendezvous.st event
  WormholeCore.execute fuel { c with rendezvous := { c.rendezvous with st := r.1 } } r.2

/-- Whether an event is a `Timing` event (the variant diverted out of the
queue at line 191 of `core.rs`). -/
def isTiming : Event τ → Bool
  | .Timing _ => true
  | _ => false

/-- The `APIAction` payload of an `API`-variant event, if any. -/
def apiOf : Event τ → Option τ.apiAction
  | .API a => some a
  | _ => none

/-- The `Timing` payload of a `Timing`-variant event, if any. -/
def timingOf : Event τ → Option τ.timingEv
  | .Timing t => some t
  | _ => none

/-- The dequeue trace of the drain loop: the events popped from the head
of the queue, in the order they were popped, with the same fuel discipline
as `execLoop`. -/
def execTrace : Nat → WormholeCore τ → List (Event τ) → Option (List (Event τ))
  | _, _, [] => some []
  | 0, _, _ :: _ => none
  | n + 1, c, e :: q =>
    let h := handleEvent c e
    let eb := enqueueBatch h.1 q h.2.2
    (execTrace n eb.1 eb.2).map (fun tr => e :: tr)

/-- The dequeue trace of a `do_api` call: the trace of the drain seeded by
`boss.process_api`. -/
def doApiTrace (fuel : Nat) (c : WormholeCore τ) (event : τ.apiEvent) :
    Option (List (Event τ)) :=
  let r := c.boss.processApi c.boss.st event
  execTrace fuel { c with boss := { c.boss with st := r.1 } } r.2

/-- The dequeue trace of a `do_io` call: the trace of the drain seeded by
`rendezvous.process_io`. -/
def doIoTrace (fuel : Nat) (c : WormholeCore τ) (event : τ.ioEvent) :
    Option (List (Event τ)) :=
  let r := c.rendezvous.processIo c.rendezvous.st event
  execTrace fuel { c with rendezvous := { c.rendezvous with st := r.1 } } r.2

/-!
The boundary bridge of `run` (lines 42-88 of `core.rs`).

The concrete `APIAction` and `APIEvent` enumerations live in `api.rs`,
which is not part of the provided core source; only the two distinguished
variants are visible in `core.rs` (`APIAction::GotClosed(_)` and
`APIEvent::Close`).
-/

/-- Modelled from the spec: the outbound application notification type of
`api.rs` (missing from the provided source) — an opaque payload with one
distinguished variant, the session-closed notification
`APIAction::GotClosed` matched at line 73 of `core.rs`. `M` is the mood
payload carried by `GotClosed`, `O` covers every other notification. -/
inductive APIAction (M O : Type) : Type where
  | GotClosed : M → APIAction M O
  | Other : O → APIAction M O

/-- Modelled from the spec: the inbound application command type of
`api.rs` (missing from the provided source) — an opaque payload with one
distinguished variant, the close command `APIEvent::Close` used at line 64
of `core.rs`. `OE` covers every other command. -/
inductive APIEvent (OE : Type) : Type where
  | Close : APIEvent OE
  | Other : OE → APIEvent OE

/-- The outbound sink `tx_api_from_core`: the list of payloads delivered
downstream so far, and whether the channel has been closed. -/
structure Sink (M O : Type) : Type where
  sent : List (APIAction M O)
  closed : Bool

/-- The panic message of the `.expect(..)` calls at lines 74 and 78 of
`core.rs` (the source text asks not to close the receiver before the
wormhole has shut down). -/
def sendPanicMsg : String := "receiver closed before wormhole shutdown"

/-- Sending on the outbound sink (`tx_api_from_core.send(action).await`):
succeeds and appends the payload while the channel is open; fails once it
is closed. The `.expect` in `run` turns the failure into a panic, modelled
as `Except.error`. -/
def sinkSend {M O : Type} (s : Sink M O) (a : APIAction M O) :
    Except String (Sink M O) :=
  if s.closed then .error sendPanicMsg
  else .ok { s with sent := s.sent ++ [a] }

/-- Closing the outbound sink (`tx_api_from_core.close().await`): marks
the channel closed. Closing an unbounded mpsc sender does not fail, so the
`.expect` at line 74 never fires. -/
def sinkClose {M O : Type} (s : Sink M O) : Sink M O :=
  { s with closed := true }

/-- The `for action in actions` forwarding loop at lines 72-80 of
`core.rs`: a `GotClosed` payload closes the sink and breaks the outer
loop (returning `true` for the break) without sending anything further;
every other payload is sent downstream, a failed send panicking via
`.expect` (modelled as `Except.error`). -/
def forwardActions {M O : Type} (s : Sink M O) :
    List (APIAction M O) → Except String (Sink M O × Bool)
  | [] => .ok (s, false)
  | .GotClosed _ :: _ => .ok (sinkClose s, true)
  | .Other o :: rest =>
    match sinkSend s (.Other o) with
    | .error msg => .error msg
    | .ok s' => forwardActions s' rest

/-!
Basic lemmas about the drain loop.
-/

theorem handleEvent_apis (c : WormholeCore τ) (e : Event τ) :
    (handleEvent c e).2.1 = (apiOf e).toList := by
  cases e <;> rfl

theorem enqueueBatch_queue (b : List (Event τ)) (c : WormholeCore τ)
    (q : List (Event τ)) :
    (enqueueBatch c q b).2 = q ++ b.filter (fun e => !isTiming e) := by
  induction b generalizing c q with
  | nil => simp [enqueueBatch]
  | cons a rest ih =>
    cases a <;> simp [enqueueBatch, isTiming, ih]

theorem enqueueBatch_core (b : List (Event τ)) (c : WormholeCore τ)
    (q : List (Event τ)) :
    (enqueueBatch c q b).1 = { c with timing := c.timing ++ b.filterMap timingOf } := by
  induction b generalizing c q with
  | nil => simp [enqueueBatch]
  | cons a rest ih =>
    cases a <;> simp [enqueueBatch, timingOf, ih]

theorem execLoop_cons (n : Nat) (c : WormholeCore τ) (e : Event τ)
    (q : List (Event τ)) (acc : List τ.apiAction) :
    execLoop (n + 1) c (e :: q) acc =
      execLoop n (enqueueBatch (handleEvent c e).1 q (handleEvent c e).2.2).1
        (enqueueBatch (handleEvent c e).1 q (handleEvent c e).2.2).2
        (acc ++ (handleEvent c e).2.1) := rfl

theorem execLoop_map_trace (n : Nat) (c : WormholeCore τ)
    (q : List (Event τ)) (acc : List τ.apiAction) :
    (execLoop n c q acc).map Prod.snd =
      (execTrace n c q).map (fun tr => acc ++ tr.filterMap apiOf) := by
  induction n generalizing c q acc with
  | zero => cases q <;> simp [execLoop, execTrace]
  | succ n ih =>
    cases q with
    | nil => simp [execLoop, execTrace]
    | cons e q =>
      rw [execLoop, execTrace]
      rw [ih]
      cases hx : execTrace n (enqueueBatch (handleEvent c e).1 q (handleEvent c e).2.2).1
          (enqueueBatch (handleEvent c e).1 q (handleEvent c e).2.2).2 with
      | none => simp [hx]
      | some tr =>
        simp [hx, handleEvent_apis, List.filterMap_cons]
        cases h : apiOf e <;> simp [h]

/-- The proposition that every machine slot of `c'` records the same
construction arguments as the corresponding slot of `c`: the dispatch
engine only ever calls `process` on the slots, it never reconstructs a
machine, so the arguments fixed by `WormholeCore::new` stay put. -/
def ArgsEq (c c' : WormholeCore τ) : Prop :=
  c'.allocator.args = c.allocator.args ∧
  c'.boss.args = c.boss.args ∧
  c'.code.args = c.code.args ∧
  c'.input.args = c.input.args ∧
  c'.key.args = c.key.args ∧
  c'.lister.args = c.lister.args ∧
  c'.mailbox.args = c.mailbox.args ∧
  c'.nameplate.args = c.nameplate.args ∧
  c'.order.args = c.order.args ∧
  c'.receive.args = c.receive.args ∧
  c'.rendezvous.args = c.rendezvous.args ∧
  c'.send.args = c.send.args ∧
  c'.terminator.args = c.terminator.args

theorem argsEq_refl (c : WormholeCore τ) : ArgsEq c c :=
  ⟨rfl, rfl, rfl, rfl, rfl, rfl, rfl, rfl, rfl, rfl, rfl, rfl, rfl⟩

theorem argsEq_trans {a b c : WormholeCore τ} (h1 : ArgsEq a b)
    (h2 : ArgsEq b c) : ArgsEq a c := by
  obtain ⟨x1, x2, x3, x4, x5, x6, x7, x8, x9, x10, x11, x12, x13⟩ := h1
  obtain ⟨y1, y2, y3, y4, y5, y6, y7, y8, y9, y10, y11, y12, y13⟩ := h2
  exact ⟨y1.trans x1, y2.trans x2, y3.trans x3, y4.trans x4, y5.trans x5,
    y6.trans x6, y7.trans x7, y8.trans x8, y9.trans x9, y10.trans x10,
    y11.trans x11, y12.trans x12, y13.trans x13⟩

theorem handleEvent_argsEq (c : WormholeCore τ) (e : Event τ) :
    ArgsEq c (handleEvent c e).1 := by
  cases e <;> exact argsEq_refl c

theorem enqueueBatch_argsEq (c : WormholeCore τ) (q b : List (Event τ)) :
    ArgsEq c (enqueueBatch c q b).1 := by
  rw [enqueueBatch_core]
  exact argsEq_refl c

theorem execLoop_argsEq (n : Nat) (c : WormholeCore τ) (q : List (Event τ))
    (acc : List τ.apiAction) (r : WormholeCore τ × List τ.apiAction)
    (h : execLoop n c q acc = some r) : ArgsEq c r.1 := by
  induction n generalizing c q acc with
  | zero =>
    cases q with
    | nil =>
      simp only [execLoop, Option.some.injEq] at h
      rw [← h]
      exact argsEq_refl c
    | cons e q => simp [execLoop] at h
  | succ n ih =>
    cases q with
    | nil =>
      simp only [execLoop, Option.some.injEq] at h
      rw [← h]
      exact argsEq_refl c
    | cons e q =>
      rw [execLoop_cons] at h
      exact argsEq_trans
        (argsEq_trans (handleEvent_argsEq c e) (enqueueBatch_argsEq _ _ _))
        (ih _ _ _ h)

theorem do_api_argsEq (fuel : Nat) (c : WormholeCore τ) (ev : τ.apiEvent)
    (r : WormholeCore τ × List τ.apiAction)
    (h : WormholeCore.do_api fuel c ev = some r) : ArgsEq c r.1 := by
  have h' := execLoop_argsEq fuel
    { c with boss := { c.boss with st := (c.boss.processApi c.boss.st ev).1 } }
    (c.boss.processApi c.boss.st ev).2 [] r h
  exact argsEq_trans
    ⟨rfl, rfl, rfl, rfl, rfl, rfl, rfl, rfl, rfl, rfl, rfl, rfl, rfl⟩ h'

theorem do_io_argsEq (fuel : Nat) (c : WormholeCore τ) (ev : τ.ioEvent)
    (r : WormholeCore τ × List τ.apiAction)
    (h : WormholeCore.do_io fuel c ev = some r) : ArgsEq c r.1 := by
  have h' := execLoop_argsEq fuel
    { c with rendezvous :=
      { c.rendezvous with st := (c.rendezvous.processIo c.rendezvous.st ev).1 } }
    (c.rendezvous.processIo c.rendezvous.st ev).2 [] r h
  exact argsEq_trans
    ⟨rfl, rfl, rfl, rfl, rfl, rfl, rfl, rfl, rfl, rfl, rfl, rfl, rfl⟩ h'

/-- The event-algebra type bundle of a core sitting behind the boundary
bridge: the application-facing payload types are the concrete modelled
`APIAction`/`APIEvent` enumerations, everything else stays opaque. -/
abbrev BTypes (β : Types) (M O OE : Type) : Types :=
  { β with apiAction := APIAction M O, apiEvent := APIEvent OE }

/-- One iteration of the bridge loop of `run` in which the select arm for
the application source fired (lines 62-65 and 72-80 of `core.rs`):
`incoming` is what `rx_api_to_core.next()` yielded (`none` when the
source is exhausted), the stimulus handed to `do_api` is
`incoming.unwrap_or(APIEvent::Close)`, and the resulting batch is run
through the forwarding loop. The outer `Option` is the engine fuel;
`Except.error` is a bridge panic; the `Bool` records whether the outer
loop was exited (the Closed terminal state). -/
def bridgeApiStep {β : Types} {M O OE : Type} (fuel : Nat)
    (c : WormholeCore (BTypes β M O OE)) (incoming : Option (APIEvent OE))
    (s : Sink M O) :
    Option (Except String (WormholeCore (BTypes β M O OE) × Sink M O × Bool)) :=
  (WormholeCore.do_api fuel c (incoming.getD APIEvent.Close)).map
    (fun r => (forwardActions s r.2).map (fun fr => (r.1, fr.1, fr.2)))

/-- Splitting lemma for the forwarding loop: on a batch consisting of
ordinary notifications `pre` followed by a `GotClosed` and an arbitrary
tail, an open sink delivers exactly `pre`, then the sink is closed (once)
and the outer loop is exited; neither the `GotClosed` payload itself nor
anything after it is delivered. -/
theorem forwardActions_split {M O : Type} (pre : List (APIAction M O))
    (s : Sink M O) (m : M) (post : List (APIAction M O))
    (hs : s.closed = false)
    (hpre : ∀ a ∈ pre, ∀ mm : M, a ≠ APIAction.GotClosed mm) :
    forwardActions s (pre ++ APIAction.GotClosed m :: post) =
      .ok ({ sent := s.sent ++ pre, closed := true }, true) := by
  induction pre generalizing s with
  | nil => simp [forwardActions, sinkClose]
  | cons a pre ih =>
    cases a with
    | GotClosed mm => exact absurd rfl (hpre _ (by simp) mm)
    | Other o =>
      have hsend : sinkSend s (APIAction.Other o) =
          .ok { s with sent := s.sent ++ [APIAction.Other o] } := by
        simp [sinkSend, hs]
      simp only [List.cons_append, forwardActions, hsend, List.append_eq]
      rw [ih ⟨s.sent ++ [APIAction.Other o], s.closed⟩ hs
        (fun a ha mm => hpre a (by simp [ha]) mm)]
      simp

/-- Sending on a closed sink: the head of the batch is an ordinary
notification, the sink is already closed, so the send fails and the
`.expect` panic propagates (nothing is swallowed, nothing more runs). -/
theorem forwardActions_closed {M O : Type} (s : Sink M O) (o : O)
    (rest : List (APIAction M O)) (hs : s.closed = true) :
    forwardActions s (APIAction.Other o :: rest) = .error sendPanicMsg := by
  simp [forwardActions, sinkSend, hs]

/-!
Termination of the drain loop for well-behaved machine sets.

A machine set is modelled as well-behaved by a rank function on events
together with a batch-size bound: every batch a machine produces consists
of events of strictly smaller rank and has at most `B` elements. This is
the formal counterpart of "no unbounded chain of self-feeding events".
-/

/-- One machine's process function only produces bounded batches of
events of strictly smaller rank than its stimulus. -/
def BatchesBelow (rank : Event τ → ℕ) (B : ℕ) {S P : Type}
    (f : S → P → S × List (Event τ)) (tag : P → Event τ) : Prop :=
  ∀ s p, (f s p).2.length ≤ B ∧ ∀ e' ∈ (f s p).2, rank e' < rank (tag p)

/-- Every machine slot of the core produces bounded, rank-decreasing
batches, in any of its states. -/
def WellRanked (rank : Event τ → ℕ) (B : ℕ) (c : WormholeCore τ) : Prop :=
  BatchesBelow rank B c.allocator.process Event.Allocator ∧
  BatchesBelow rank B c.boss.process Event.Boss ∧
  BatchesBelow rank B c.code.process Event.Code ∧
  BatchesBelow rank B c.input.process Event.Input ∧
  BatchesBelow rank B c.key.process Event.Key ∧
  BatchesBelow rank B c.lister.process Event.Lister ∧
  BatchesBelow rank B c.mailbox.process Event.Mailbox ∧
  BatchesBelow rank B c.nameplate.process Event.Nameplate ∧
  BatchesBelow rank B c.order.process Event.Order ∧
  BatchesBelow rank B c.receive.process Event.Receive ∧
  BatchesBelow rank B c.rendezvous.process Event.Rendezvous ∧
  BatchesBelow rank B c.send.process Event.Send ∧
  BatchesBelow rank B c.terminator.process Event.Terminator

theorem handleEvent_wellRanked {rank : Event τ → ℕ} {B : ℕ}
    {c : WormholeCore τ} (h : WellRanked rank B c) (e : Event τ) :
    WellRanked rank B (handleEvent c e).1 := by
  cases e <;> exact h

theorem enqueueBatch_wellRanked {rank : Event τ → ℕ} {B : ℕ}
    {c : WormholeCore τ} (h : WellRanked rank B c) (q b : List (Event τ)) :
    WellRanked rank B (enqueueBatch c q b).1 := by
  rw [enqueueBatch_core]
  exact h

theorem handleEvent_batchBound {rank : Event τ → ℕ} {B : ℕ}
    {c : WormholeCore τ} (h : WellRanked rank B c) (e : Event τ) :
    (handleEvent c e).2.2.length ≤ B ∧
      ∀ e' ∈ (handleEvent c e).2.2, rank e' < rank e := by
  obtain ⟨h1, h2, h3, h4, h5, h6, h7, h8, h9, h10, h11, h12, h13⟩ := h
  cases e with
  | API a => exact ⟨Nat.zero_le B, fun e' he' => absurd he' (List.not_mem_nil e')⟩
  | Io a => exact ⟨Nat.zero_le B, fun e' he' => absurd he' (List.not_mem_nil e')⟩
  | Timing t => exact ⟨Nat.zero_le B, fun e' he' => absurd he' (List.not_mem_nil e')⟩
  | Allocator p => exact h1 c.allocator.st p
  | Boss p => exact h2 c.boss.st p
  | Code p => exact h3 c.code.st p
  | Input p => exact h4 c.input.st p
  | Key p => exact h5 c.key.st p
  | Lister p => exact h6 c.lister.st p
  | Mailbox p => exact h7 c.mailbox.st p
  | Nameplate p => exact h8 c.nameplate.st p
  | Order p => exact h9 c.order.st p
  | Receive p => exact h10 c.receive.st p
  | Rendezvous p => exact h11 c.rendezvous.st p
  | Send p => exact h12 c.send.st p
  | Terminator p => exact h13 c.terminator.st p

/-- The weight of a single event under a rank function and batch bound. -/
def eweight (rank : Event τ → ℕ) (B : ℕ) (e : Event τ) : ℕ :=
  (B + 1) ^ rank e

/-- The weight of a queue: the sum of its event weights. This measure
strictly decreases at every iteration of the drain loop of a well-ranked
core. -/
def qweight (rank : Event τ → ℕ) (B : ℕ) (q : List (Event τ)) : ℕ :=
  (q.map (eweight rank B)).sum

theorem batch_qweight_lt (rank : Event τ → ℕ) (B r : ℕ)
    (l : List (Event τ)) (hlen : l.length ≤ B)
    (hr : ∀ e ∈ l, rank e < r) : qweight rank B l < (B + 1) ^ r := by
  cases l with
  | nil =>
    simp only [qweight, List.map_nil, List.sum_nil]
    exact pow_pos (Nat.succ_pos B) r
  | cons x xs =>
    have hr1 : 1 ≤ r := by have := hr x (by simp); omega
    have hbound : ∀ w ∈ (x :: xs).map (eweight rank B), w ≤ (B + 1) ^ (r - 1) := by
      intro w hw
      obtain ⟨e, he, rfl⟩ := List.mem_map.mp hw
      exact Nat.pow_le_pow_right (Nat.succ_pos B) (by have := hr e he; omega)
    calc qweight rank B (x :: xs)
        ≤ ((x :: xs).map (eweight rank B)).length • ((B + 1) ^ (r - 1)) :=
          List.sum_le_card_nsmul _ _ hbound
      _ = ((x :: xs).map (eweight rank B)).length * ((B + 1) ^ (r - 1)) :=
          smul_eq_mul _
      _ ≤ B * ((B + 1) ^ (r - 1)) := by
          refine Nat.mul_le_mul_right _ ?_
          simpa using hlen
      _ < (B + 1) * ((B + 1) ^ (r - 1)) :=
          mul_lt_mul_of_pos_right (Nat.lt_succ_self B)
            (pow_pos (Nat.succ_pos B) _)
      _ = (B + 1) ^ r := by
          rw [← pow_succ']
          congr 1
          omega

theorem drain_step_qweight {rank : Event τ → ℕ} {B : ℕ}
    {c : WormholeCore τ} (h : WellRanked rank B c) (e : Event τ)
    (q : List (Event τ)) :
    qweight rank B (enqueueBatch (handleEvent c e).1 q (handleEvent c e).2.2).2 <
      qweight rank B (e :: q) := by
  rw [enqueueBatch_queue]
  have hb := handleEvent_batchBound h e
  have hflt : ((handleEvent c e).2.2.filter (fun x => !isTiming x)).length ≤ B :=
    le_trans (List.length_filter_le _ _) hb.1
  have hfr : ∀ x ∈ (handleEvent c e).2.2.filter (fun x => !isTiming x),
      rank x < rank e :=
    fun x hx => hb.2 x (List.mem_of_mem_filter hx)
  have hlt := batch_qweight_lt rank B (rank e) _ hflt hfr
  have e1 : qweight rank B
      (q ++ (handleEvent c e).2.2.filter (fun x => !isTiming x)) =
      qweight rank B q +
        qweight rank B ((handleEvent c e).2.2.filter (fun x => !isTiming x)) := by
    simp [qweight]
  have e2 : qweight rank B (e :: q) = (B + 1) ^ rank e + qweight rank B q := by
    simp [qweight, eweight]
  omega

theorem execLoop_isSome_of_qweight (rank : Event τ → ℕ) (B : ℕ) :
    ∀ (n : ℕ) (c : WormholeCore τ) (q : List (Event τ))
      (acc : List τ.apiAction), WellRanked rank B c →
      qweight rank B q ≤ n → (execLoop (n + 1) c q acc).isSome := by
  intro n
  induction n with
  | zero =>
    intro c q acc hw hq
    cases q with
    | nil => simp [execLoop]
    | cons e q' =>
      exfalso
      have hp : 0 < eweight rank B e := pow_pos (Nat.succ_pos B) _
      have e2 : qweight rank B (e :: q') =
          eweight rank B e + qweight rank B q' := by simp [qweight]
      omega
  | succ n ih =>
    intro c q acc hw hq
    cases q with
    | nil => simp [execLoop]
    | cons e q' =>
      rw [execLoop_cons]
      apply ih
      · exact enqueueBatch_wellRanked (handleEvent_wellRanked hw e) q' _
      · have := drain_step_qweight hw e q'
        omega

/-!
Concrete instantiations used by witnesses and counterexamples.
-/

/-- A concrete type bundle: every payload type is `Nat` except the
application id, which is a string. -/
abbrev demoTypes : Types :=
  ⟨Nat, Nat, Nat, Nat, Nat, Nat, Nat, Nat, Nat, Nat, Nat, Nat, Nat, Nat,
    Nat, Nat, Nat, Nat, String, Nat⟩

/-- The no-op machine behaviour: unit state, empty output batch. -/
def nilBehavior (υ : Types) (P : Type) : Behavior υ P :=
  ⟨Unit, (), fun s _ => (s, [])⟩

/-- A bundle of no-op behaviours for every machine slot. -/
def defaultBehaviors (υ : Types) : Behaviors υ where
  allocator := nilBehavior υ υ.allocatorEv
  boss := ⟨Unit, (), fun s _ => (s, []), fun s _ => (s, [])⟩
  code := nilBehavior υ υ.codeEv
  input := nilBehavior υ υ.inputEv
  key := nilBehavior υ υ.keyEv
  lister := nilBehavior υ υ.listerEv
  mailbox := nilBehavior υ υ.mailboxEv
  nameplate := nilBehavior υ υ.nameplateEv
  order := nilBehavior υ υ.orderEv
  receive := nilBehavior υ υ.receiveEv
  rendezvous := ⟨Unit, (), fun s _ => (s, []), fun s _ => (s, [])⟩
  send := nilBehavior υ υ.sendEv
  terminator := nilBehavior υ υ.terminatorEv

/-- A concrete core with no-op machines. -/
def demoCore : WormholeCore demoTypes :=
  WormholeCore.new demoTypes (defaultBehaviors demoTypes) "app" "relay" 0

/-- A concrete core whose boss answers the api stimulus `0` with the batch
`[API 1, Key 5, API 2]` and whose key machine answers payload `p` with
`[API (p + 10)]`: two producers interleaving their application output. -/
def orderCore : WormholeCore demoTypes :=
  WormholeCore.new demoTypes
    { defaultBehaviors demoTypes with
      boss := ⟨Unit, (),
        fun s _ => (s, []),
        fun s _ => (s, [Event.API 1, Event.Key 5, Event.API 2])⟩
      key := ⟨Unit, (), fun s p => (s, [Event.API (p + 10)])⟩ }
    "app" "relay" 0

/-- A concrete core whose key machine feeds itself: processing `Key p`
produces `[Key p]` again, an unbounded self-feeding cascade. -/
def selfLoopCore : WormholeCore demoTypes :=
  { demoCore with key := ⟨{}, Unit, (), fun s p => (s, [Event.Key p])⟩ }

/-- The type bundle of the concrete bridge-level core. -/
abbrev bridgeTypes : Types := BTypes demoTypes Nat Nat Nat

/-- A concrete bridge-level core whose boss answers every api stimulus
with the batch `[API (GotClosed 0)]`: the protocol acknowledges a close
request with the distinguished session-closed notification. -/
def closeCore : WormholeCore bridgeTypes :=
  WormholeCore.new bridgeTypes
    { defaultBehaviors bridgeTypes with
      boss := ⟨Unit, (),
        fun s _ => (s, []),
        fun s _ => (s, [Event.API (APIAction.GotClosed 0)])⟩ }
    "app" "relay" 0

/-- The no-op machine set is trivially well-ranked: no machine ever
produces an event. -/
theorem demoCore_wellRanked : WellRanked (fun _ => 0) 0 demoCore := by
  refine ⟨?_, ?_, ?_, ?_, ?_, ?_, ?_, ?_, ?_, ?_, ?_, ?_, ?_⟩ <;>
    exact fun s p => ⟨Nat.le_refl 0, fun e' he' => absurd he' (List.not_mem_nil e')⟩

/-!
The claims.
-/

/-- C1: every drain cycle processes the event queue breadth-first. The
first conjunct is the step equation of the drain loop: the event processed
next is always the head of the queue. The second conjunct characterises
the enqueueing of a produced batch: every non-`Timing` event of the batch
is appended at the tail of the existing queue, in batch order, and nothing
is ever inserted at the front — so events are consumed in exact FIFO order
of their production. -/
theorem C1_breadth_first_fifo :
    (∀ (υ : Types) (n : ℕ) (c : WormholeCore υ) (e : Event υ)
        (q : List (Event υ)) (acc : List υ.apiAction),
      execLoop (n + 1) c (e :: q) acc =
        execLoop n (enqueueBatch (handleEvent c e).1 q (handleEvent c e).2.2).1
          (enqueueBatch (handleEvent c e).1 q (handleEvent c e).2.2).2
          (acc ++ (handleEvent c e).2.1)) ∧
    (∀ (υ : Types) (c : WormholeCore υ) (q b : List (Event υ)),
      (enqueueBatch c q b).2 = q ++ b.filter (fun x => !isTiming x)) :=
  ⟨fun _ n c e q acc => execLoop_cons n c e q acc,
   fun _ c q b => enqueueBatch_queue b c q⟩

/-- C2: every dequeued event is handled by its variant tag alone. An
`API`-variant event is appended to the action accumulator and is not
requeued (first conjunct, which also shows no machine state changes); an
`IO`-variant event is handed synchronously to the io bridge and is not
requeued (second conjunct); each machine-named variant is passed to
exactly the machine named by its tag: the record update touches only that
one slot, nothing is pushed to the accumulator, and the machine's batch is
returned for enqueueing (remaining conjuncts, one per machine). -/
theorem C2_variant_routing :
    (∀ (υ : Types) (n : ℕ) (c : WormholeCore υ) (a : υ.apiAction)
        (q : List (Event υ)) (acc : List υ.apiAction),
      execLoop (n + 1) c (Event.API a :: q) acc = execLoop n c q (acc ++ [a])) ∧
    (∀ (υ : Types) (n : ℕ) (c : WormholeCore υ) (a : υ.ioAction)
        (q : List (Event υ)) (acc : List υ.apiAction),
      execLoop (n + 1) c (Event.Io a :: q) acc =
        execLoop n { c with io := c.io ++ [a] } q acc) ∧
    (∀ (υ : Types) (c : WormholeCore υ) (p : υ.allocatorEv),
      handleEvent c (Event.Allocator p) =
        ({ c with allocator := { c.allocator with st := (c.allocator.process c.allocator.st p).1 } },
          [], (c.allocator.process c.allocator.st p).2)) ∧
    (∀ (υ : Types) (c : WormholeCore υ) (p : υ.bossEv),
      handleEvent c (Event.Boss p) =
        ({ c with boss := { c.boss with st := (c.boss.process c.boss.st p).1 } },
          [], (c.boss.process c.boss.st p).2)) ∧
    (∀ (υ : Types) (c : WormholeCore υ) (p : υ.codeEv),
      handleEvent c (Event.Code p) =
        ({ c with code := { c.code with st := (c.code.process c.code.st p).1 } },
          [], (c.code.process c.code.st p).2)) ∧
    (∀ (υ : Types) (c : WormholeCore υ) (p : υ.inputEv),
      handleEvent c (Event.Input p) =
        ({ c with input := { c.input with st := (c.input.process c.input.st p).1 } },
          [], (c.input.process c.input.st p).2)) ∧
    (∀ (υ : Types) (c : WormholeCore υ) (p : υ.keyEv),
      handleEvent c (Event.Key p) =
        ({ c with key := { c.key with st := (c.key.process c.key.st p).1 } },
          [], (c.key.process c.key.st p).2)) ∧
    (∀ (υ : Types) (c : WormholeCore υ) (p : υ.listerEv),
      handleEvent c (Event.Lister p) =
        ({ c with lister := { c.lister with st := (c.lister.process c.lister.st p).1 } },
          [], (c.lister.process c.lister.st p).2)) ∧
    (∀ (υ : Types) (c : WormholeCore υ) (p : υ.mailboxEv),
      handleEvent c (Event.Mailbox p) =
        ({ c with mailbox := { c.mailbox with st := (c.mailbox.process c.mailbox.st p).1 } },
          [], (c.mailbox.process c.mailbox.st p).2)) ∧
    (∀ (υ : Types) (c : WormholeCore υ) (p : υ.nameplateEv),
      handleEvent c (Event.Nameplate p) =
        ({ c with nameplate := { c.nameplate with st := (c.nameplate.process c.nameplate.st p).1 } },
          [], (c.nameplate.process c.nameplate.st p).2)) ∧
    (∀ (υ : Types) (c : WormholeCore υ) (p : υ.orderEv),
      handleEvent c (Event.Order p) =
        ({ c with order := { c.order with st := (c.order.process c.order.st p).1 } },
          [], (c.order.process c.order.st p).2)) ∧
    (∀ (υ : Types) (c : WormholeCore υ) (p : υ.receiveEv),
      handleEvent c (Event.Receive p) =
        ({ c with receive := { c.receive with st := (c.receive.process c.receive.st p).1 } },
          [], (c.receive.process c.receive.st p).2)) ∧
    (∀ (υ : Types) (c : WormholeCore υ) (p : υ.rendezvousEv),
      handleEvent c (Event.Rendezvous p) =
        ({ c with rendezvous := { c.rendezvous with st := (c.rendezvous.process c.rendezvous.st p).1 } },
          [], (c.rendezvous.process c.rendezvous.st p).2)) ∧
    (∀ (υ : Types) (c : WormholeCore υ) (p : υ.sendEv),
      handleEvent c (Event.Send p) =
        ({ c with send := { c.send with st := (c.send.process c.send.st p).1 } },
          [], (c.send.process c.send.st p).2)) ∧
    (∀ (υ : Types) (c : WormholeCore υ) (p : υ.terminatorEv),
      handleEvent c (Event.Terminator p) =
        ({ c with terminator := { c.terminator with st := (c.terminator.process c.terminator.st p).1 } },
          [], (c.terminator.process c.terminator.st p).2)) := by
  refine ⟨?_, ?_, ?_, ?_, ?_, ?_, ?_, ?_, ?_, ?_, ?_, ?_, ?_, ?_, ?_⟩
  · intro υ n c a q acc
    rfl
  · intro υ n c a q acc
    rw [execLoop_cons]
    simp [handleEvent, enqueueBatch]
  all_goals exact fun υ c p => rfl

/-- C3: for every single stimulus, `do_api` and `do_io` return — only
once the queue has drained to empty within the given fuel — exactly the
`API`-variant payloads among the dequeued events, in dequeue order (which
by C1 is production order): the returned accumulator equals the
`filterMap` of the api payloads over the dequeue trace. -/
theorem C3_accumulator_order :
    (∀ (υ : Types) (fuel : ℕ) (c : WormholeCore υ) (ev : υ.apiEvent)
        (res : List υ.apiAction),
      (WormholeCore.do_api fuel c ev).map Prod.snd = some res →
      ∃ tr, doApiTrace fuel c ev = some tr ∧ res = tr.filterMap apiOf) ∧
    (∀ (υ : Types) (fuel : ℕ) (c : WormholeCore υ) (ev : υ.ioEvent)
        (res : List υ.apiAction),
      (WormholeCore.do_io fuel c ev).map Prod.snd = some res →
      ∃ tr, doIoTrace fuel c ev = some tr ∧ res = tr.filterMap apiOf) := by
  constructor
  · intro υ fuel c ev res h
    have h' : (execTrace fuel
        { c with boss := { c.boss with st := (c.boss.processApi c.boss.st ev).1 } }
        (c.boss.processApi c.boss.st ev).2).map
          (fun tr => [] ++ tr.filterMap apiOf) = some res := by
      rw [← execLoop_map_trace]
      exact h
    cases htr : execTrace fuel
        { c with boss := { c.boss with st := (c.boss.processApi c.boss.st ev).1 } }
        (c.boss.processApi c.boss.st ev).2 with
    | none => rw [htr] at h'; exact absurd h' (by simp)
    | some tr =>
      rw [htr] at h'
      refine ⟨tr, htr, ?_⟩
      simp only [Option.map_some', Option.some.injEq] at h'
      rw [← h']
      simp
  · intro υ fuel c ev res h
    have h' : (execTrace fuel
        { c with rendezvous :=
          { c.rendezvous with st := (c.rendezvous.processIo c.rendezvous.st ev).1 } }
        (c.rendezvous.processIo c.rendezvous.st ev).2).map
          (fun tr => [] ++ tr.filterMap apiOf) = some res := by
      rw [← execLoop_map_trace]
      exact h
    cases htr : execTrace fuel
        { c with rendezvous :=
          { c.rendezvous with st := (c.rendezvous.processIo c.rendezvous.st ev).1 } }
        (c.rendezvous.processIo c.rendezvous.st ev).2 with
    | none => rw [htr] at h'; exact absurd h' (by simp)
    | some tr =>
      rw [htr] at h'
      refine ⟨tr, htr, ?_⟩
      simp only [Option.map_some', Option.some.injEq] at h'
      rw [← h']
      simp

/-- Witness for C3: on the concrete `orderCore`, where the boss produces
`[API 1, Key 5, API 2]` and the key machine then produces `[API 15]`, the
drain returns `[1, 2, 15]`, the api payloads of the dequeue trace in
order. -/
theorem C3_accumulator_order_witness :
    ∃ tr, doApiTrace 4 orderCore 0 = some tr ∧
      [1, 2, 15] = tr.filterMap apiOf :=
  C3_accumulator_order.1 demoTypes 4 orderCore 0 [1, 2, 15] rfl

/-- C4 counterexample: the claim says that after `GotClosed` is produced
the bridge delivers exactly one outbound closed notification downstream
and then closes the channel. On the concrete batch `[GotClosed 0]` with an
open empty sink, the forwarding loop closes the sink and exits while
delivering nothing at all: the sent list stays empty, refuting the
delivery of a closed notification. -/
theorem C4_close_counterexample :
    forwardActions (⟨[], false⟩ : Sink ℕ ℕ) [APIAction.GotClosed 0] =
      .ok (⟨[], true⟩, true) ∧
    ¬ forwardActions (⟨[], false⟩ : Sink ℕ ℕ) [APIAction.GotClosed 0] =
      .ok (⟨[APIAction.GotClosed 0], true⟩, true) := by
  have h : forwardActions (⟨[], false⟩ : Sink ℕ ℕ) [APIAction.GotClosed 0] =
      .ok (⟨[], true⟩, true) := rfl
  refine ⟨h, fun hc => ?_⟩
  rw [h] at hc
  simp at hc

/-- C4 (amended): once the distinguished `GotClosed` notification appears
in a drain cycle's batch, the bridge closes the outbound channel exactly
once and exits the loop; the `GotClosed` payload itself is not forwarded,
and no payload occurring after it in the batch is accepted for delivery —
only the ordinary notifications before it are delivered, in order. -/
theorem C4_close_once_and_exit (M O : Type) (s : Sink M O)
    (pre post : List (APIAction M O)) (m : M)
    (hs : s.closed = false)
    (hpre : ∀ a ∈ pre, ∀ mm : M, a ≠ APIAction.GotClosed mm) :
    forwardActions s (pre ++ APIAction.GotClosed m :: post) =
      .ok ({ sent := s.sent ++ pre, closed := true }, true) :=
  forwardActions_split pre s m post hs hpre

/-- Witness for C4: a concrete batch with one ordinary notification before
the `GotClosed` and one after it: only the first is delivered, the sink is
closed and the loop exited. -/
theorem C4_close_once_and_exit_witness :
    forwardActions (⟨[], false⟩ : Sink ℕ ℕ)
      ([APIAction.Other 1] ++ APIAction.GotClosed 0 :: [APIAction.Other 2]) =
      .ok (⟨[APIAction.Other 1], true⟩, true) :=
  C4_close_once_and_exit ℕ ℕ ⟨[], false⟩ [APIAction.Other 1] [APIAction.Other 2] 0
    rfl (by intro a ha mm; simp at ha; subst ha; simp)

/-- C5: when the application-command source is exhausted
(`rx_api_to_core.next()` yields `none`), the bridge behaves exactly as if
the synthetic `Close` stimulus had arrived (first conjunct, the
`unwrap_or(APIEvent::Close)` substitution), and if the engine's drain of
that synthetic stimulus completes and its batch contains the `GotClosed`
notification, the bridge iteration returns with the loop exited — the
Closed terminal state — rather than hanging (second conjunct). -/
theorem C5_synthetic_close :
    (∀ (β : Types) (M O OE : Type) (fuel : ℕ)
        (c : WormholeCore (BTypes β M O OE)) (s : Sink M O),
      bridgeApiStep fuel c none s = bridgeApiStep fuel c (some APIEvent.Close) s) ∧
    (∀ (β : Types) (M O OE : Type) (fuel : ℕ)
        (c c' : WormholeCore (BTypes β M O OE)) (s : Sink M O)
        (pre post : List (APIAction M O)) (m : M),
      s.closed = false →
      (∀ a ∈ pre, ∀ mm : M, a ≠ APIAction.GotClosed mm) →
      WormholeCore.do_api fuel c APIEvent.Close =
        some (c', pre ++ APIAction.GotClosed m :: post) →
      bridgeApiStep fuel c none s =
        some (.ok (c', { sent := s.sent ++ pre, closed := true }, true))) := by
  constructor
  · intro β M O OE fuel c s
    rfl
  · intro β M O OE fuel c c' s pre post m hs hpre hrun
    unfold bridgeApiStep
    simp only [Option.getD_none]
    rw [hrun]
    simp only [Option.map_some']
    rw [forwardActions_split pre s m post hs hpre]
    rfl

/-- Witness for C5: the concrete `closeCore` answers the synthetic close
with `[GotClosed 0]`; a bridge iteration on an exhausted source closes the
sink, delivers nothing further and exits the loop. -/
theorem C5_synthetic_close_witness :
    bridgeApiStep 1 closeCore none (⟨[], false⟩ : Sink ℕ ℕ) =
      some (.ok (closeCore, ⟨[], true⟩, true)) :=
  C5_synthetic_close.2 demoTypes ℕ ℕ ℕ 1 closeCore closeCore ⟨[], false⟩ [] [] 0
    rfl (fun a ha _ => absurd ha (List.not_mem_nil a)) rfl

/-- C6: the drain cycle of any well-ranked core terminates: if every
machine's process function is total (it is a Lean function) and only
produces bounded batches of events of strictly smaller rank — the formal
reading of "no unbounded chain of self-feeding events" — then some fuel
drains any seed batch to completion (first conjunct). The engine performs
no cycle detection: on the concrete `selfLoopCore`, whose key machine
feeds itself, the drain loop runs out of any amount of fuel (second
conjunct). -/
theorem C6_drain_termination :
    (∀ (υ : Types) (rank : Event υ → ℕ) (B : ℕ) (c : WormholeCore υ),
      WellRanked rank B c → ∀ seed : List (Event υ),
      ∃ fuel, (WormholeCore.execute fuel c seed).isSome) ∧
    (∀ fuel, WormholeCore.execute fuel selfLoopCore [Event.Key 0] = none) := by
  constructor
  · intro υ rank B c hw seed
    exact ⟨qweight rank B seed + 1,
      execLoop_isSome_of_qweight rank B (qweight rank B seed) c seed [] hw
        (Nat.le_refl _)⟩
  · intro fuel
    induction fuel with
    | zero => rfl
    | succ n ih => exact ih

/-- Witness for C6: the no-op core is well-ranked with the constant rank
and bound zero, so its drain of a concrete seed terminates. -/
theorem C6_drain_termination_witness :
    ∃ fuel, (WormholeCore.execute fuel demoCore [Event.API 3]).isSome :=
  C6_drain_termination.1 demoTypes (fun _ => 0) 0 demoCore demoCore_wellRanked
    [Event.API 3]

/-- C7 counterexample: the claim says every `Timing` event flowing through
the core is diverted into the passive timing collector, including `Timing`
events appearing in the seed batch. On the concrete no-op core with seed
`[Timing 7]`, the drain completes but the collector stays empty: the seed
`Timing` event was dequeued and dropped by the unimplemented `Timing`
match arm, not collected. -/
theorem C7_seed_timing_counterexample :
    (WormholeCore.execute 1 demoCore [Event.Timing 7]).map (fun r => r.1.timing) =
      some [] ∧
    ¬ (WormholeCore.execute 1 demoCore [Event.Timing 7]).map (fun r => r.1.timing) =
      some [7] := by
  have h : (WormholeCore.execute 1 demoCore [Event.Timing 7]).map
      (fun r => r.1.timing) = some [] := rfl
  refine ⟨h, fun hc => ?_⟩
  rw [h] at hc
  simp at hc

/-- C7 (amended): a `Timing` event produced by a machine during the drain
is diverted, in order, into the passive timing collector and is never
requeued (first conjunct: the collector receives exactly the batch's
timing payloads and the queue exactly its non-`Timing` events); a `Timing`
event dequeued from the event queue itself (possible only via the seed
batch) is discarded without any effect: no machine processes it, nothing
is produced, and the collector is not extended (second conjunct, the
unimplemented `Timing` match arm). In neither case is a `Timing` event
ever passed as input to any sub-machine. -/
theorem C7_timing_diversion :
    (∀ (υ : Types) (c : WormholeCore υ) (q b : List (Event υ)),
      (enqueueBatch c q b).1 =
        { c with timing := c.timing ++ b.filterMap timingOf } ∧
      (enqueueBatch c q b).2 = q ++ b.filter (fun x => !isTiming x)) ∧
    (∀ (υ : Types) (c : WormholeCore υ) (t : υ.timingEv),
      handleEvent c (Event.Timing t) = (c, [], [])) :=
  ⟨fun _ c q b => ⟨enqueueBatch_core b c q, enqueueBatch_queue b c q⟩,
   fun _ _ _ => rfl⟩

/-- C8 counterexample: the claim says the application identifier, the
relay address and the timing parameter are distributed to the key, mailbox
and rendezvous machines at construction. On a concretely constructed
session, the mailbox constructor receives none of the three (and the key
constructor receives neither the relay address nor the timing parameter). -/
theorem C8_mailbox_counterexample :
    demoCore.mailbox.args.appid = none ∧
    demoCore.mailbox.args.relayUrl = none ∧
    demoCore.mailbox.args.retryTimer = none ∧
    demoCore.key.args.relayUrl = none ∧
    demoCore.key.args.retryTimer = none ∧
    ¬ demoCore.mailbox.args.relayUrl = some "relay" := by
  refine ⟨rfl, rfl, rfl, rfl, rfl, fun h => ?_⟩
  rw [show demoCore.mailbox.args.relayUrl = (none : Option String) from rfl] at h
  exact Option.noConfusion h

/-- C8 (amended): at session creation the application identifier and the
relay address are supplied once; the rendezvous timing parameter is the
hardcoded constant `5.0`. They are distributed at construction as follows:
the key machine receives the application identifier (and the side
identity), the mailbox machine receives only the side identity, and the
rendezvous machine receives the application identifier, the relay address,
the side identity and the timing parameter. The recorded construction
arguments of every machine are immutable for the session's lifetime:
neither `do_api` nor `do_io` ever alters them. -/
theorem C8_param_distribution :
    (∀ (υ : Types) (b : Behaviors υ) (appid : υ.appID) (relayUrl : String)
        (side : υ.side),
      (WormholeCore.new υ b appid relayUrl side).key.args =
        { appid := some appid, sideArg := some side } ∧
      (WormholeCore.new υ b appid relayUrl side).mailbox.args =
        { sideArg := some side } ∧
      (WormholeCore.new υ b appid relayUrl side).rendezvous.args =
        { appid := some appid
          relayUrl := some relayUrl
          sideArg := some side
          retryTimer := some retryTimerSeconds }) ∧
    (∀ (υ : Types) (fuel : ℕ) (c : WormholeCore υ) (ev : υ.apiEvent)
        (r : WormholeCore υ × List υ.apiAction),
      WormholeCore.do_api fuel c ev = some r → ArgsEq c r.1) ∧
    (∀ (υ : Types) (fuel : ℕ) (c : WormholeCore υ) (ev : υ.ioEvent)
        (r : WormholeCore υ × List υ.apiAction),
      WormholeCore.do_io fuel c ev = some r → ArgsEq c r.1) :=
  ⟨fun _ _ _ _ _ => ⟨rfl, rfl, rfl⟩,
   fun _ fuel c ev r h => do_api_argsEq fuel c ev r h,
   fun _ fuel c ev r h => do_io_argsEq fuel c ev r h⟩

/-- Witness for C8: a completed `do_api` drain on the concrete no-op core
leaves every construction argument unchanged. -/
theorem C8_param_distribution_witness : ArgsEq demoCore demoCore :=
  C8_param_distribution.2.1 demoTypes 0 demoCore 0 (demoCore, []) rfl

/-- C9: attempting to deliver a notification downstream after the
outbound sink has closed is a fatal invariant violation: the send fails
and the `.expect` panic propagates out of the forwarding loop (modelled as
the `Except.error` result) instead of being silently swallowed. -/
theorem C9_panic_after_close :
    (∀ (M O : Type) (s : Sink M O) (a : APIAction M O), s.closed = true →
      sinkSend s a = .error sendPanicMsg) ∧
    (∀ (M O : Type) (s : Sink M O) (o : O) (rest : List (APIAction M O)),
      s.closed = true →
      forwardActions s (APIAction.Other o :: rest) = .error sendPanicMsg) := by
  constructor
  · intro M O s a hs
    simp [sinkSend, hs]
  · intro M O s o rest hs
    exact forwardActions_closed s o rest hs

/-- Witness for C9: a concrete send on a closed sink panics. -/
theorem C9_panic_after_close_witness :
    sinkSend (⟨[], true⟩ : Sink ℕ ℕ) (APIAction.Other 5) =
      .error sendPanicMsg ∧
    forwardActions (⟨[], true⟩ : Sink ℕ ℕ) [APIAction.Other 5] =
      .error sendPanicMsg :=
  ⟨C9_panic_after_close.1 ℕ ℕ ⟨[], true⟩ (APIAction.Other 5) rfl,
   C9_panic_after_close.2 ℕ ℕ ⟨[], true⟩ 5 [] rfl⟩

/-- C10: `WormholeCore::new` passes the one freshly generated side
identity — the same value — to the key, mailbox, rendezvous and send
machine constructors, and to no other machine (first conjunct); the
recorded construction arguments, the side identity included, are never
altered by any later `do_api` or `do_io` drain (second and third
conjuncts), so the identity is never regenerated or replaced during the
session. -/
theorem C10_side_distribution :
    (∀ (υ : Types) (b : Behaviors υ) (appid : υ.appID) (relayUrl : String)
        (side : υ.side),
      (WormholeCore.new υ b appid relayUrl side).key.args.sideArg = some side ∧
      (WormholeCore.new υ b appid relayUrl side).mailbox.args.sideArg = some side ∧
      (WormholeCore.new υ b appid relayUrl side).rendezvous.args.sideArg = some side ∧
      (WormholeCore.new υ b appid relayUrl side).send.args.sideArg = some side ∧
      (WormholeCore.new υ b appid relayUrl side).allocator.args.sideArg = none ∧
      (WormholeCore.new υ b appid relayUrl side).boss.args.sideArg = none ∧
      (WormholeCore.new υ b appid relayUrl side).code.args.sideArg = none ∧
      (WormholeCore.new υ b appid relayUrl side).input.args.sideArg = none ∧
      (WormholeCore.new υ b appid relayUrl side).lister.args.sideArg = none ∧
      (WormholeCore.new υ b appid relayUrl side).nameplate.args.sideArg = none ∧
      (WormholeCore.new υ b appid relayUrl side).order.args.sideArg = none ∧
      (WormholeCore.new υ b appid relayUrl side).receive.args.sideArg = none ∧
      (WormholeCore.new υ b appid relayUrl side).terminator.args.sideArg = none) ∧
    (∀ (υ : Types) (fuel : ℕ) (c : WormholeCore υ) (ev : υ.apiEvent)
        (r : WormholeCore υ × List υ.apiAction),
      WormholeCore.do_api fuel c ev = some r →
        r.1.key.args.sideArg = c.key.args.sideArg ∧
        r.1.mailbox.args.sideArg = c.mailbox.args.sideArg ∧
        r.1.rendezvous.args.sideArg = c.rendezvous.args.sideArg ∧
        r.1.send.args.sideArg = c.send.args.sideArg) ∧
    (∀ (υ : Types) (fuel : ℕ) (c : WormholeCore υ) (ev : υ.ioEvent)
        (r : WormholeCore υ × List υ.apiAction),
      WormholeCore.do_io fuel c ev = some r →
        r.1.key.args.sideArg = c.key.args.sideArg ∧
        r.1.mailbox.args.sideArg = c.mailbox.args.sideArg ∧
        r.1.rendezvous.args.sideArg = c.rendezvous.args.sideArg ∧
        r.1.send.args.sideArg = c.send.args.sideArg) := by
  refine ⟨fun υ b appid relayUrl side =>
    ⟨rfl, rfl, rfl, rfl, rfl, rfl, rfl, rfl, rfl, rfl, rfl, rfl, rfl⟩, ?_, ?_⟩
  · intro υ fuel c ev r h
    obtain ⟨_, _, _, _, h5, _, h7, _, _, _, h11, h12, _⟩ := do_api_argsEq fuel c ev r h
    exact ⟨by rw [h5], by rw [h7], by rw [h11], by rw [h12]⟩
  · intro υ fuel c ev r h
    obtain ⟨_, _, _, _, h5, _, h7, _, _, _, h11, h12, _⟩ := do_io_argsEq fuel c ev r h
    exact ⟨by rw [h5], by rw [h7], by rw [h11], by rw [h12]⟩

/-- Witness for C10: a completed `do_io` drain on the concrete `orderCore`
leaves the side identity recorded at every machine unchanged. -/
theorem C10_side_distribution_witness :
    orderCore.key.args.sideArg = orderCore.key.args.sideArg ∧
    orderCore.mailbox.args.sideArg = orderCore.mailbox.args.sideArg ∧
    orderCore.rendezvous.args.sideArg = orderCore.rendezvous.args.sideArg ∧
    orderCore.send.args.sideArg = orderCore.send.args.sideArg :=
  C10_side_distribution.2.2 demoTypes 0 orderCore 0 (orderCore, []) rfl

end Wormhole
